import Mathlib

/-!
Verification of the swarm-optimization engine (PSO driver, firefly algorithm
and probe protocol) of the `evolutionary-algorithms` repository.

Floating point values are embedded as the type `F64`: the IEEE-754 special
values NaN, +inf and -inf are explicit constructors and every finite double is
represented by its exact rational value.  Comparisons follow IEEE-754
semantics (any comparison involving NaN is false); finite arithmetic is
modelled exactly over the rationals (rounding and overflow to infinity are
abstracted away, special-value propagation follows IEEE-754).
-/

/-- Model of an `f64` value: NaN, the two infinities, or a finite value
represented exactly as a rational. -/
inductive F64 where
  | nan : F64
  | negInf : F64
  | finite : ℚ → F64
  | inf : F64
deriving DecidableEq, Repr

/-- IEEE-754 strict less-than on doubles: every comparison with NaN is false. -/
def F64.lt : F64 → F64 → Bool
  | nan, _ => false
  | _, nan => false
  | negInf, negInf => false
  | negInf, _ => true
  | _, negInf => false
  | inf, _ => false
  | finite _, inf => true
  | finite a, finite b => decide (a < b)

/-- IEEE-754 less-or-equal on doubles: every comparison with NaN is false. -/
def F64.le : F64 → F64 → Bool
  | nan, _ => false
  | _, nan => false
  | negInf, _ => true
  | _, negInf => false
  | _, inf => true
  | inf, _ => false
  | finite a, finite b => decide (a ≤ b)

/-- IEEE-754 negation (exact). -/
def F64.neg : F64 → F64
  | nan => nan
  | inf => negInf
  | negInf => inf
  | finite a => finite (-a)

/-- IEEE-754 addition with exact finite arithmetic; inf + (-inf) is NaN. -/
def F64.add : F64 → F64 → F64
  | nan, _ => nan
  | _, nan => nan
  | inf, negInf => nan
  | negInf, inf => nan
  | inf, _ => inf
  | _, inf => inf
  | negInf, _ => negInf
  | _, negInf => negInf
  | finite a, finite b => finite (a + b)

/-- IEEE-754 subtraction: a - b = a + (-b) (exact in IEEE-754). -/
def F64.sub (a b : F64) : F64 := F64.add a (F64.neg b)

/-- IEEE-754 multiplication with exact finite arithmetic; inf * 0 is NaN. -/
def F64.mul : F64 → F64 → F64
  | nan, _ => nan
  | _, nan => nan
  | inf, inf => inf
  | inf, negInf => negInf
  | negInf, inf => negInf
  | negInf, negInf => inf
  | inf, finite b => if b = 0 then nan else if 0 < b then inf else negInf
  | finite a, inf => if a = 0 then nan else if 0 < a then inf else negInf
  | negInf, finite b => if b = 0 then nan else if 0 < b then negInf else inf
  | finite a, negInf => if a = 0 then nan else if 0 < a then negInf else inf
  | finite a, finite b => finite (a * b)

/-!
Embedding of `PSOAlgorithm::execute` (src/pso.rs, lines 83-94) as the trace of
swarm updates and probe calls it performs.  The trace records which operation
is invoked, in order.  A run that panics (the remainder
`(iteration + 1) % log_interval` with `log_interval == 0` panics in Rust) is
modelled as `Option.none`; the partial trace before the panic is not
retained.
-/

/-- One call performed by `PSOAlgorithm::execute`: a swarm update or a probe
notification. -/
inductive EngineEvent where
  | updateVelocities : EngineEvent
  | updatePositions : EngineEvent
  | updateBestPosition : EngineEvent
  | onBegin : EngineEvent
  | onNewGeneration : Nat → EngineEvent
  | onEnd : EngineEvent
deriving DecidableEq, Repr

/-- The calls of one loop body of `execute` (src/pso.rs lines 86-91): the
three swarm updates in fixed order, then `on_new_generation(swarm,
iteration + 1)` when `(iteration + 1) % log_interval == 0`.  Only meaningful
for `log_interval ≠ 0`; the division-by-zero panic is handled in
`iterationEvents`. -/
def iterBlock (log_interval iteration : Nat) : List EngineEvent :=
  [EngineEvent.updateVelocities, EngineEvent.updatePositions,
   EngineEvent.updateBestPosition] ++
    (if (iteration + 1) % log_interval = 0
     then [EngineEvent.onNewGeneration (iteration + 1)] else [])

/-- One loop iteration of `execute`; in Rust, the remainder operation panics
when `log_interval == 0`, modelled as `none`. -/
def iterationEvents (log_interval iteration : Nat) : Option (List EngineEvent) :=
  if log_interval = 0 then none else some (iterBlock log_interval iteration)

/-- The full call trace of `PSOAlgorithm::execute` (src/pso.rs lines 83-94):
`probe.on_begin`, the loop over `0..iterations`, then `probe.on_end`;
`none` when the run panics. -/
def executeTrace (log_interval iterations : Nat) : Option (List EngineEvent) :=
  ((List.range iterations).mapM (iterationEvents log_interval)).map
    (fun blocks => EngineEvent.onBegin :: (blocks.flatten ++ [EngineEvent.onEnd]))

/-- Embedding of `rosenbrock` (src/pso.rs, lines 97-109): the loop over
`0..x.len()` with an early `break` at index `x.len() - 1`; `value` starts at
`f64::default()`, which is `0.0`. -/
def rosenbrockGo (x : List F64) : List Nat → F64 → F64
  | [], value => value
  | i :: rest, value =>
    if i = x.length - 1 then value
    else
      let x_curr := x.getD i (F64.finite 0)
      let x_next := x.getD (i + 1) (F64.finite 0)
      rosenbrockGo x rest
        (F64.add value
          (F64.add
            (F64.mul
              (F64.mul (F64.finite 100) (F64.sub x_next (F64.mul x_curr x_curr)))
              (F64.sub x_next (F64.mul x_curr x_curr)))
            (F64.mul (F64.sub (F64.finite 1) x_curr)
              (F64.sub (F64.finite 1) x_curr))))

/-- `rosenbrock(x)` from src/pso.rs: iterates the loop body over indices
`0..x.len()`. -/
def rosenbrock (x : List F64) : F64 :=
  rosenbrockGo x (List.range x.length) (F64.finite 0)

/-!
Embedding of the firefly component (src/ff.rs).
-/

/-- The squared-difference accumulation loop of `distance` (src/ff.rs,
lines 186-192): `for dimension in 0..a.len()` indexes both `a` and `b`, so
the recursion walks `a` and `b` in lockstep; if `b` runs out first, the Rust
indexing `b[dimension]` panics, modelled as `none`. -/
def distanceSumGo : List F64 → List F64 → F64 → Option F64
  | [], _, res => some res
  | _ :: _, [], _ => none
  | ai :: arest, bi :: brest, res =>
    distanceSumGo arest brest
      (F64.add res (F64.mul (F64.sub ai bi) (F64.sub ai bi)))

/-- `distance(a, b)` from src/ff.rs, lines 186-192.  `f64::powi(d, 2)` is the
exact product `d * d`; the final `f64::sqrt` is an arbitrary function of the
accumulated sum, taken as the parameter `sqrtF` (the symmetry claim holds for
every choice of it). -/
def distance (sqrtF : F64 → F64) (a b : List F64) : Option F64 :=
  (distanceSumGo a b (F64.finite 0)).map sqrtF

/-- The best-tracking step of `FireflyAlgorithm::execute` (src/ff.rs,
lines 169-174): when `brightness_function(population[maxpos]) < currentbest`
the probe is told `on_new_best` and `currentbest` is overwritten; otherwise
the probe is told `on_current_best`.  The boolean records whether
`on_new_best` fired. -/
def fireflyBestStep (candidate currentbest : F64) : F64 × Bool :=
  if F64.lt candidate currentbest then (candidate, true) else (currentbest, false)

/-- The movement guard of `FireflyAlgorithm::execute` (src/ff.rs, line 146):
firefly `index` moves toward firefly `innerindex` only when
`brightness[index] < brightness[innerindex]`. -/
def fireflyMoveGuard (brightnessIndex brightnessInner : F64) : Bool :=
  F64.lt brightnessIndex brightnessInner

/-!
The PSO `particle`, `swarm` and `probe` modules are declared in src/pso.rs
(`pub mod particle; pub mod probe; pub mod swarm;`) but their files are not
present under src/.  The definitions below are therefore modelled from the
specification text, as their doc comments state.
-/

/-- A PSO particle (spec section 3): position, velocity, personal-best
position and its fitness. -/
structure Particle where
  position : List F64
  velocity : List F64
  best_position : List F64
  best_fitness : F64
deriving DecidableEq, Repr

/-- Modelled from the spec: `Swarm::update_best_position` (src/pso/swarm.rs
is absent from src/) — rescans all personal bests and updates the global best
when one improves on it; minimization uses strict `<`, so the first particle
in iteration order wins ties. -/
def updateBestPosition (particles : List Particle) (best : F64 × List F64) :
    F64 × List F64 :=
  particles.foldl
    (fun best p =>
      if F64.lt p.best_fitness best.1 then (p.best_fitness, p.best_position)
      else best)
    best

/-- Modelled from the spec: the global-best value tracked across the
iteration loop of `PSOAlgorithm::execute`.  Within one iteration only
`update_best_position` touches the global best (spec section 4.2), so the
particle states produced by `update_positions` in iteration `k` are
abstracted as the oracle `particlesAt k` (they depend on the random number
generator and the objective). -/
def globalBestSeq (particlesAt : Nat → List Particle) (init : F64 × List F64) :
    Nat → F64 × List F64
  | 0 => init
  | k + 1 => updateBestPosition (particlesAt k) (globalBestSeq particlesAt init k)

/-- The error raised on invalid construction parameters (spec section 7). -/
inductive PSOError where
  | ConfigurationError : PSOError
deriving DecidableEq, Repr

/-- A PSO swarm (spec section 3): the particles plus the global best. -/
structure Swarm where
  particles : List Particle
  best_position : List F64
  best_fitness : F64
deriving DecidableEq, Repr

/-- Modelled from the spec: `Swarm::generate` (src/pso/swarm.rs is absent
from src/) — fails with `ConfigurationError` if `particle_count == 0`,
`dimensions == 0`, or `lower_bound >= upper_bound`; otherwise builds each
particle with randomly drawn position and velocity (the random draws are
abstracted as the oracles `randPos` and `randVel`), personal best initialized
to the starting position and its fitness, and the global best as the extremum
of the personal bests. -/
def Swarm.generate (particle_count dimensions : Nat)
    (lower_bound upper_bound : F64) (objective : List F64 → F64)
    (randPos randVel : Nat → Nat → F64) : Except PSOError Swarm :=
  if particle_count = 0 ∨ dimensions = 0 ∨ F64.le upper_bound lower_bound
  then Except.error PSOError.ConfigurationError
  else
    let mkParticle : Nat → Particle := fun i =>
      let pos := (List.range dimensions).map (randPos i)
      ⟨pos, (List.range dimensions).map (randVel i), pos, objective pos⟩
    match (List.range particle_count).map mkParticle with
    | [] => Except.error PSOError.ConfigurationError
    | p :: rest =>
      let best := updateBestPosition rest (p.best_fitness, p.best_position)
      Except.ok ⟨p :: rest, best.2, best.1⟩

/-- Modelled from the spec: a full PSO run — `PSOAlgorithm::new`
(src/pso.rs, lines 75-81) generates the swarm from the configuration and
`execute` then drives the iteration loop; a configuration error prevents any
iteration from running (spec section 7). -/
def runPSO (particle_count dimensions : Nat) (lower_bound upper_bound : F64)
    (objective : List F64 → F64) (randPos randVel : Nat → Nat → F64)
    (log_interval iterations : Nat) :
    Except PSOError (Option (List EngineEvent)) :=
  (Swarm.generate particle_count dimensions lower_bound upper_bound objective
      randPos randVel).map
    (fun _ => executeTrace log_interval iterations)

/-- The PSO configuration (src/pso.rs, lines 18-49).  The `probe`
trait-object field is not represented: probe behaviour is modelled separately
by the trace and fan-out definitions. -/
structure PSOAlgorithmCfg where
  dimensions : Nat
  lower_bound : F64
  upper_bound : F64
  particle_count : Nat
  inertia_weight : F64
  cognitive_coefficient : F64
  social_coefficient : F64
  function : List F64 → F64
  iterations : Nat
  log_interval : Nat

/-- `impl Default for PSOAlgorithmCfg` (src/pso.rs, lines 51-67). -/
def PSOAlgorithmCfg.default : PSOAlgorithmCfg :=
  ⟨2, F64.finite (-10), F64.finite 10, 30, F64.finite (1 / 2), F64.finite 1,
   F64.finite 3, rosenbrock, 500, 10⟩

/-!
The fan-out probe (`MultiProbe`, src/pso/probe/multi_probe.rs) is also absent
from src/; only its caller `pso_demo` (src/pso.rs, lines 111-129) is present.
It is modelled from the spec.
-/

/-- Modelled from the spec: the fan-out loop of `MultiProbe` — for one event,
invoke the same operation on every held probe, in list order.  Probes are
identified by their registration index. -/
def deliverToAll (probes : List Nat) (e : EngineEvent) :
    List (Nat × EngineEvent) :=
  match probes with
  | [] => []
  | p :: rest => (p, e) :: deliverToAll rest e

/-- Whether an engine-trace entry is a probe notification. -/
def isProbeEvent : EngineEvent → Bool
  | EngineEvent.onBegin => true
  | EngineEvent.onNewGeneration _ => true
  | EngineEvent.onEnd => true
  | _ => false

/-- Whether an engine-trace entry is an `on_new_generation` notification. -/
def isNewGeneration : EngineEvent → Bool
  | EngineEvent.onNewGeneration _ => true
  | _ => false

/-- Whether an engine-trace entry is one of the three swarm updates. -/
def isSwarmUpdate : EngineEvent → Bool
  | EngineEvent.updateVelocities => true
  | EngineEvent.updatePositions => true
  | EngineEvent.updateBestPosition => true
  | _ => false

/-- Modelled from the spec: the delivery trace of a `MultiProbe` holding `n`
inner probes and attached to an engine run with call trace `t` — every probe
notification of the engine is fanned out to the inner probes in registration
order. -/
def multiProbeTrace (n : Nat) (t : List EngineEvent) :
    List (Nat × EngineEvent) :=
  (t.filter isProbeEvent).flatMap (deliverToAll (List.range n))

/-- The `on_new_generation` notifications produced by the engine loop over
the iteration indices `l` (the interval-conditional branch of src/pso.rs
lines 89-91). -/
def notificationEvents (log_interval : Nat) (l : List Nat) : List EngineEvent :=
  l.flatMap (fun k =>
    if (k + 1) % log_interval = 0
    then [EngineEvent.onNewGeneration (k + 1)] else [])

/-- The fan-out entries that are an `on_new_generation` delivery to inner
probe `i`. -/
def probeNewGenPred (i : Nat) : Nat × EngineEvent → Bool := fun pe =>
  pe.1 == i && isNewGeneration pe.2

/-- Modelled from the spec: fan-out with fallible delivery.  Each inner probe
is represented by its delivery behaviour: `none` for success and `some code`
for a `ProbeDeliveryError` with error code `code` (e.g. a write error).  The
loop notifies every probe in registration order regardless of failures,
returning the indices notified and the collected per-probe errors; `i` is the
registration index of the first probe in the list. -/
def fanOutDeliver : List (EngineEvent → Option Nat) → Nat → EngineEvent →
    List Nat × List (Nat × Nat)
  | [], _, _ => ([], [])
  | b :: rest, i, e =>
    let tail := fanOutDeliver rest (i + 1) e
    (i :: tail.1,
     match b e with
     | some code => (i, code) :: tail.2
     | none => tail.2)

/-!  Theorems.  First, facts about the F64 comparison. -/

theorem F64.lt_trans {a b c : F64} (hab : F64.lt a b = true)
    (hbc : F64.lt b c = true) : F64.lt a c = true := by
  cases a <;> cases b <;> cases c <;> simp_all [F64.lt]
  exact hab.trans hbc

theorem F64.nan_lt (x : F64) : F64.lt F64.nan x = false := by cases x <;> rfl

theorem F64.lt_nan (x : F64) : F64.lt x F64.nan = false := by cases x <;> rfl

/-!  Helper lemmas about the engine trace. -/

theorem mapM_iterationEvents (li : Nat) (h : li ≠ 0) (l : List Nat) :
    l.mapM (iterationEvents li) = some (l.map (iterBlock li)) := by
  rw [← List.mapM'_eq_mapM]
  induction l with
  | nil => rfl
  | cons a l ih => simp [List.mapM', iterationEvents, h, ih]

theorem executeTrace_eq (li n : Nat) (h : 1 ≤ li) :
    executeTrace li n =
      some (EngineEvent.onBegin ::
        ((List.range n).flatMap (iterBlock li) ++ [EngineEvent.onEnd])) := by
  have h0 : li ≠ 0 := by omega
  unfold executeTrace
  rw [mapM_iterationEvents li h0]
  simp [List.flatMap_def]

theorem onBegin_not_mem_iterBlock (li k : Nat) :
    EngineEvent.onBegin ∉ iterBlock li k := by
  simp only [iterBlock, List.mem_append]
  rintro (h | h)
  · simp at h
  · split at h <;> simp at h

theorem onEnd_not_mem_iterBlock (li k : Nat) :
    EngineEvent.onEnd ∉ iterBlock li k := by
  simp only [iterBlock, List.mem_append]
  rintro (h | h)
  · simp at h
  · split at h <;> simp at h

theorem count_onBegin_flatMap (li : Nat) (l : List Nat) :
    (l.flatMap (iterBlock li)).count EngineEvent.onBegin = 0 := by
  rw [List.count_eq_zero]
  intro hmem
  obtain ⟨k, _, hk⟩ := List.mem_flatMap.mp hmem
  exact onBegin_not_mem_iterBlock li k hk

theorem count_onEnd_flatMap (li : Nat) (l : List Nat) :
    (l.flatMap (iterBlock li)).count EngineEvent.onEnd = 0 := by
  rw [List.count_eq_zero]
  intro hmem
  obtain ⟨k, _, hk⟩ := List.mem_flatMap.mp hmem
  exact onEnd_not_mem_iterBlock li k hk

theorem filter_swarmUpdate_iterBlock (li k : Nat) :
    (iterBlock li k).filter isSwarmUpdate =
      [EngineEvent.updateVelocities, EngineEvent.updatePositions,
       EngineEvent.updateBestPosition] := by
  unfold iterBlock
  split <;> rfl

theorem filter_swarmUpdate_flatMap (li : Nat) (l : List Nat) :
    (l.flatMap (iterBlock li)).filter isSwarmUpdate =
      l.flatMap (fun _ =>
        [EngineEvent.updateVelocities, EngineEvent.updatePositions,
         EngineEvent.updateBestPosition]) := by
  induction l with
  | nil => rfl
  | cons a l ih =>
    simp [List.flatMap_cons, List.filter_append, ih,
      filter_swarmUpdate_iterBlock]

/-- C1. For every PSO run (with a nonzero notification interval, since the
interval enters a remainder operation), `execute` first calls
`probe.on_begin` exactly once, then for each iteration in `0..iterations`
performs `update_velocities`, `update_positions`, `update_best_position` in
that fixed order (followed by the interval-conditional
`on_new_generation`), and after the loop calls `probe.on_end` exactly once;
the trace equality shows no swarm update or probe call happens outside this
sequence. -/
theorem pso_execute_call_sequence (li n : Nat) (h : 1 ≤ li) :
    ∃ t, executeTrace li n = some t ∧
      t = EngineEvent.onBegin ::
        ((List.range n).flatMap (iterBlock li) ++ [EngineEvent.onEnd]) ∧
      t.count EngineEvent.onBegin = 1 ∧
      t.count EngineEvent.onEnd = 1 ∧
      t.filter isSwarmUpdate =
        (List.range n).flatMap (fun _ =>
          [EngineEvent.updateVelocities, EngineEvent.updatePositions,
           EngineEvent.updateBestPosition]) := by
  refine ⟨_, executeTrace_eq li n h, rfl, ?_, ?_, ?_⟩
  · simp [List.count_cons, List.count_append, count_onBegin_flatMap]
  · simp [List.count_cons, List.count_append, count_onEnd_flatMap]
  · simp [List.filter_cons, List.filter_append, filter_swarmUpdate_flatMap,
      isSwarmUpdate]

/-- Witness for C1 at `log_interval = 1`, `iterations = 1`. -/
theorem pso_execute_call_sequence_witness :
    1 ≤ 1 ∧
      ∃ t, executeTrace 1 1 = some t ∧
        t = EngineEvent.onBegin ::
          ((List.range 1).flatMap (iterBlock 1) ++ [EngineEvent.onEnd]) ∧
        t.count EngineEvent.onBegin = 1 ∧
        t.count EngineEvent.onEnd = 1 ∧
        t.filter isSwarmUpdate =
          (List.range 1).flatMap (fun _ =>
            [EngineEvent.updateVelocities, EngineEvent.updatePositions,
             EngineEvent.updateBestPosition]) :=
  ⟨by decide, pso_execute_call_sequence 1 1 (by decide)⟩

theorem updateBestPosition_cons (p : Particle) (rest : List Particle)
    (b : F64 × List F64) :
    updateBestPosition (p :: rest) b =
      updateBestPosition rest
        (if F64.lt p.best_fitness b.1 then (p.best_fitness, p.best_position)
         else b) := rfl

theorem updateBestPosition_monotone (ps : List Particle) (b : F64 × List F64) :
    (updateBestPosition ps b).1 = b.1 ∨
      F64.lt (updateBestPosition ps b).1 b.1 = true := by
  induction ps generalizing b with
  | nil => exact Or.inl rfl
  | cons p rest ih =>
    rw [updateBestPosition_cons]
    by_cases hc : F64.lt p.best_fitness b.1 = true
    · rw [if_pos hc]
      rcases ih (p.best_fitness, p.best_position) with heq | hlt
      · exact Or.inr (heq ▸ hc)
      · exact Or.inr (F64.lt_trans hlt hc)
    · rw [if_neg hc]
      exact ih b

/-- C2. The tracked global best fitness is never worse after iteration `k+1`
than after iteration `k` (non-increasing under the strict-`<` minimization
comparison): for the PSO global-best sequence (whatever particle states the
randomized updates produce each iteration), and likewise for the firefly
`currentbest` tracking step of src/ff.rs lines 169-174. -/
theorem global_best_fitness_monotone (particlesAt : Nat → List Particle)
    (init : F64 × List F64) (k : Nat) :
    ((globalBestSeq particlesAt init (k + 1)).1 =
        (globalBestSeq particlesAt init k).1 ∨
      F64.lt (globalBestSeq particlesAt init (k + 1)).1
        (globalBestSeq particlesAt init k).1 = true) ∧
    ∀ candidate currentbest : F64,
      (fireflyBestStep candidate currentbest).1 = currentbest ∨
        F64.lt (fireflyBestStep candidate currentbest).1 currentbest = true := by
  constructor
  · exact updateBestPosition_monotone (particlesAt k) _
  · intro candidate currentbest
    unfold fireflyBestStep
    by_cases hc : F64.lt candidate currentbest = true
    · rw [if_pos hc]
      exact Or.inr hc
    · rw [if_neg hc]
      exact Or.inl rfl

/-- C6. A NaN objective value never counts as an improvement in the
best-tracking comparisons of src/ff.rs: the strict-`<` comparison is false
whenever NaN is on either side, so the best-tracking step at lines 169-174
keeps `currentbest` unchanged (and reports `on_current_best`, not
`on_new_best`) for a NaN candidate, and the movement guard at line 146 never
fires on a NaN brightness. -/
theorem nan_never_improves_best :
    (∀ x : F64, F64.lt F64.nan x = false ∧ F64.lt x F64.nan = false) ∧
    (∀ currentbest : F64,
      fireflyBestStep F64.nan currentbest = (currentbest, false)) ∧
    (∀ b : F64,
      fireflyMoveGuard F64.nan b = false ∧ fireflyMoveGuard b F64.nan = false) := by
  refine ⟨fun x => ⟨F64.nan_lt x, F64.lt_nan x⟩, ?_, ?_⟩
  · intro currentbest
    simp [fireflyBestStep, F64.nan_lt]
  · intro b
    exact ⟨F64.nan_lt b, F64.lt_nan b⟩

/-- C7. The default PSO configuration (src/pso.rs lines 51-67) has exactly
the reference values: dimensions 2, bounds -10 and 10, 30 particles, inertia
0.5, cognitive coefficient 1.0, social coefficient 3.0, 500 iterations, and
log interval 10. -/
theorem pso_default_config_values :
    PSOAlgorithmCfg.default.dimensions = 2 ∧
    PSOAlgorithmCfg.default.lower_bound = F64.finite (-10) ∧
    PSOAlgorithmCfg.default.upper_bound = F64.finite 10 ∧
    PSOAlgorithmCfg.default.particle_count = 30 ∧
    PSOAlgorithmCfg.default.inertia_weight = F64.finite (1 / 2) ∧
    PSOAlgorithmCfg.default.cognitive_coefficient = F64.finite 1 ∧
    PSOAlgorithmCfg.default.social_coefficient = F64.finite 3 ∧
    PSOAlgorithmCfg.default.function = rosenbrock ∧
    PSOAlgorithmCfg.default.iterations = 500 ∧
    PSOAlgorithmCfg.default.log_interval = 10 :=
  ⟨rfl, rfl, rfl, rfl, rfl, rfl, rfl, rfl, rfl, rfl⟩

/-- C8. The remainder `(iteration + 1) % log_interval` in
`PSOAlgorithm::execute` never divides by zero when `log_interval ≥ 1` (the
trace is defined for every iteration count), and with `log_interval = 0` and
at least one iteration the run panics on the first iteration (the trace is
`none`). -/
theorem log_interval_zero_division_panic :
    (∀ li n : Nat, 1 ≤ li → (executeTrace li n).isSome = true) ∧
    (∀ n : Nat, 1 ≤ n → executeTrace 0 n = none) := by
  constructor
  · intro li n h
    rw [executeTrace_eq li n h]
    rfl
  · intro n h
    obtain ⟨m, rfl⟩ : ∃ m, n = m + 1 := ⟨n - 1, by omega⟩
    unfold executeTrace
    rw [← List.mapM'_eq_mapM, List.range_succ_eq_map]
    simp [List.mapM', iterationEvents]

/-- Witness for C8 at `log_interval = 10, iterations = 3` and
`log_interval = 0, iterations = 1`. -/
theorem log_interval_zero_division_panic_witness :
    (executeTrace 10 3).isSome = true ∧ executeTrace 0 1 = none :=
  ⟨log_interval_zero_division_panic.1 10 3 (by decide),
   log_interval_zero_division_panic.2 1 (by decide)⟩

theorem sub_sq_symm (x y : F64) :
    F64.mul (F64.sub x y) (F64.sub x y) =
      F64.mul (F64.sub y x) (F64.sub y x) := by
  cases x <;> cases y <;> simp [F64.sub, F64.neg, F64.add, F64.mul]
  ring_nf

theorem distanceSumGo_symm (a : List F64) :
    ∀ (b : List F64), a.length = b.length → ∀ res : F64,
      distanceSumGo a b res = distanceSumGo b a res := by
  induction a with
  | nil =>
    intro b h res
    cases b with
    | nil => rfl
    | cons _ _ => simp at h
  | cons ai arest ih =>
    intro b h res
    cases b with
    | nil => simp at h
    | cons bi brest =>
      simp only [distanceSumGo]
      rw [sub_sq_symm]
      exact ih brest (by simpa using h) _

/-- C9. `distance(a, b)` (src/ff.rs lines 186-192) is exactly symmetric for
vectors of equal length, for every square-root function: each squared
per-dimension difference is the same value in both orders. -/
theorem distance_symmetric (sqrtF : F64 → F64) (a b : List F64)
    (h : a.length = b.length) :
    distance sqrtF a b = distance sqrtF b a := by
  unfold distance
  rw [distanceSumGo_symm a b h]

/-- Witness for C9 at two concrete two-dimensional points. -/
theorem distance_symmetric_witness :
    [F64.finite 1, F64.finite 2].length = [F64.finite 3, F64.finite 5].length ∧
      distance id [F64.finite 1, F64.finite 2] [F64.finite 3, F64.finite 5] =
        distance id [F64.finite 3, F64.finite 5] [F64.finite 1, F64.finite 2] :=
  ⟨by decide, distance_symmetric id _ _ (by decide)⟩

/-- C10. `rosenbrock(x)` (src/pso.rs lines 97-109) returns `0.0` for every
input of length at most one: the loop contributes no terms. -/
theorem rosenbrock_short_input_zero (x : List F64) (h : x.length ≤ 1) :
    rosenbrock x = F64.finite 0 := by
  match x with
  | [] => rfl
  | [_] => rfl
  | _ :: _ :: _ => simp [List.length_cons] at h

/-- Witness for C10 at the one-element input `[5.0]`. -/
theorem rosenbrock_short_input_zero_witness :
    [F64.finite 5].length ≤ 1 ∧ rosenbrock [F64.finite 5] = F64.finite 0 :=
  ⟨by decide, rosenbrock_short_input_zero [F64.finite 5] (by decide)⟩

/-!  Helper lemmas for the fan-out probe counts. -/

theorem filter_probeEvent_iterBlock (li k : Nat) :
    (iterBlock li k).filter isProbeEvent =
      (if (k + 1) % li = 0
       then [EngineEvent.onNewGeneration (k + 1)] else []) := by
  unfold iterBlock
  split <;> rfl

theorem filter_probeEvent_flatMap (li : Nat) (l : List Nat) :
    (l.flatMap (iterBlock li)).filter isProbeEvent = notificationEvents li l := by
  induction l with
  | nil => rfl
  | cons a l ih =>
    simp only [List.flatMap_cons, List.filter_append, ih, notificationEvents]
    rw [filter_probeEvent_iterBlock]

theorem mem_deliverToAll {probes : List Nat} {e : EngineEvent}
    {x : Nat × EngineEvent} (h : x ∈ deliverToAll probes e) : x.2 = e := by
  induction probes with
  | nil => simp [deliverToAll] at h
  | cons p rest ih =>
    simp only [deliverToAll, List.mem_cons] at h
    rcases h with h | h
    · rw [h]
    · exact ih h

theorem mem_notificationEvents {li : Nat} {l : List Nat} {e : EngineEvent}
    (h : e ∈ notificationEvents li l) : isNewGeneration e = true := by
  simp only [notificationEvents, List.mem_flatMap] at h
  obtain ⟨k, _, hk⟩ := h
  split at hk
  · rw [List.mem_singleton] at hk
    rw [hk]
    rfl
  · simp at hk

theorem count_deliverToAll (probes : List Nat) (e : EngineEvent) (i : Nat)
    (e0 : EngineEvent) :
    (deliverToAll probes e).count (i, e0) =
      if e0 = e then probes.count i else 0 := by
  induction probes with
  | nil => simp [deliverToAll]
  | cons p rest ih =>
    by_cases he : e0 = e
    · subst he
      by_cases hip : i = p
      · subst hip
        simp [deliverToAll, List.count_cons, ih]
      · simp [deliverToAll, List.count_cons, ih, hip, Prod.ext_iff]
    · simp [deliverToAll, List.count_cons, ih, he, Prod.ext_iff]

theorem countP_newGen_deliverToAll (probes : List Nat) (e : EngineEvent)
    (i : Nat) :
    (deliverToAll probes e).countP (probeNewGenPred i) =
      if isNewGeneration e then probes.count i else 0 := by
  induction probes with
  | nil => simp [deliverToAll]
  | cons p rest ih =>
    cases hne : isNewGeneration e <;> by_cases hip : p = i <;>
      simp [deliverToAll, List.countP_cons, List.count_cons, ih,
        probeNewGenPred, hne, hip]

theorem count_pair_flatMap_notification (li : Nat) (l : List Nat)
    (probes : List Nat) (i : Nat) (e0 : EngineEvent)
    (h : isNewGeneration e0 = false) :
    ((notificationEvents li l).flatMap (deliverToAll probes)).count (i, e0) =
      0 := by
  rw [List.count_eq_zero]
  intro hmem
  rw [List.mem_flatMap] at hmem
  obtain ⟨e, hel, hde⟩ := hmem
  have h2 : e0 = e := mem_deliverToAll hde
  have h3 := mem_notificationEvents hel
  rw [← h2, h] at h3
  exact Bool.noConfusion h3

theorem countP_newGen_flatMap_notification (li : Nat) (probes : List Nat)
    (i : Nat) (l : List Nat) :
    ((notificationEvents li l).flatMap (deliverToAll probes)).countP
        (probeNewGenPred i) =
      probes.count i * l.countP (fun k => (k + 1) % li == 0) := by
  induction l with
  | nil => simp [notificationEvents]
  | cons k rest ih =>
    have hcons : notificationEvents li (k :: rest) =
        (if (k + 1) % li = 0
         then [EngineEvent.onNewGeneration (k + 1)] else []) ++
          notificationEvents li rest := by
      simp [notificationEvents]
    rw [hcons, List.flatMap_append, List.countP_append, ih,
      List.countP_cons]
    by_cases hk : (k + 1) % li = 0
    · rw [if_pos hk]
      simp only [List.flatMap_cons, List.flatMap_nil, List.append_nil,
        countP_newGen_deliverToAll, isNewGeneration]
      have hb : ((k + 1) % li == 0) = true := by simpa using hk
      rw [hb]
      simp only [if_pos rfl, if_true]
      ring
    · simp [hk]

theorem countP_notify_range (li n : Nat) :
    (List.range n).countP (fun k => (k + 1) % li == 0) = n / li := by
  induction n with
  | zero => simp
  | succ n ih =>
    rw [List.range_succ, List.countP_append, ih, Nat.succ_div]
    simp only [List.countP_cons, List.countP_nil]
    by_cases hd : li ∣ (n + 1)
    · have hm : (n + 1) % li = 0 := Nat.mod_eq_zero_of_dvd hd
      simp [hd, hm]
    · have hm : ¬(n + 1) % li = 0 := fun hc => hd (Nat.dvd_of_mod_eq_zero hc)
      simp [hd, hm]

theorem count_range_of_lt (n i : Nat) (h : i < n) : (List.range n).count i = 1 := by
  induction n with
  | zero => omega
  | succ n ih =>
    rw [List.range_succ, List.count_append]
    by_cases hin : i < n
    · have hne : i ≠ n := by omega
      rw [ih hin]
      simp [List.count_cons, hne]
    · have heq : i = n := by omega
      subst heq
      have hz : (List.range i).count i = 0 := by
        rw [List.count_eq_zero]
        simp [List.mem_range]
      simp [hz, List.count_cons]

theorem deliverToAll_cons (p : Nat) (rest : List Nat) (e : EngineEvent) :
    deliverToAll (p :: rest) e = (p, e) :: deliverToAll rest e := rfl

theorem deliverToAll_getElem? (probes : List Nat) (e : EngineEvent) :
    ∀ j : Nat, (deliverToAll probes e)[j]? = (probes[j]?).map (fun p => (p, e)) := by
  induction probes with
  | nil =>
    intro j
    cases j <;> rfl
  | cons p rest ih =>
    intro j
    cases j with
    | zero =>
      rw [deliverToAll_cons]
      simp
    | succ j =>
      rw [deliverToAll_cons, List.getElem?_cons_succ, List.getElem?_cons_succ,
        ih j]

theorem multiProbeTrace_executeTrace (N li n : Nat) (h : 1 ≤ li) :
    ∀ t, executeTrace li n = some t →
      multiProbeTrace N t =
        deliverToAll (List.range N) EngineEvent.onBegin ++
          (((notificationEvents li (List.range n)).flatMap
              (deliverToAll (List.range N))) ++
            deliverToAll (List.range N) EngineEvent.onEnd) := by
  intro t ht
  rw [executeTrace_eq li n h, Option.some.injEq] at ht
  subst ht
  unfold multiProbeTrace
  rw [List.filter_cons, List.filter_append, filter_probeEvent_flatMap]
  simp [List.flatMap_cons, List.flatMap_append, isProbeEvent]

/-- C3. Modelled from the spec for the fan-out (`MultiProbe` is absent from
src/): over a full run with `notification_interval ≥ 1` and a fan-out of `N`
inner probes, each inner probe `i` receives `on_begin` exactly once,
`on_new_generation` exactly `iterations / notification_interval` times
(floor division), and `on_end` exactly once; and each event reaches probe
`j` at offset `j` of its delivery block, i.e. in registration order. -/
theorem multi_probe_event_counts (N li n i : Nat) (hli : 1 ≤ li)
    (hi : i < N) :
    ∃ t, executeTrace li n = some t ∧
      (multiProbeTrace N t).count (i, EngineEvent.onBegin) = 1 ∧
      (multiProbeTrace N t).countP (probeNewGenPred i) = n / li ∧
      (multiProbeTrace N t).count (i, EngineEvent.onEnd) = 1 ∧
      ∀ (e : EngineEvent) (j : Nat), j < N →
        (deliverToAll (List.range N) e)[j]? = some (j, e) := by
  have hmt := multiProbeTrace_executeTrace N li n hli _ (executeTrace_eq li n hli)
  refine ⟨_, executeTrace_eq li n hli, ?_, ?_, ?_, ?_⟩
  · rw [hmt]
    rw [List.count_append, List.count_append, count_deliverToAll,
      count_deliverToAll,
      count_pair_flatMap_notification li (List.range n) (List.range N) i
        EngineEvent.onBegin rfl]
    simp [count_range_of_lt N i hi]
  · rw [hmt]
    rw [List.countP_append, List.countP_append, countP_newGen_deliverToAll,
      countP_newGen_deliverToAll, countP_newGen_flatMap_notification,
      countP_notify_range]
    simp [isNewGeneration, count_range_of_lt N i hi]
  · rw [hmt]
    rw [List.count_append, List.count_append, count_deliverToAll,
      count_deliverToAll,
      count_pair_flatMap_notification li (List.range n) (List.range N) i
        EngineEvent.onEnd rfl]
    simp [count_range_of_lt N i hi]
  · intro e j hj
    rw [deliverToAll_getElem?]
    simp [hj]

/-- Witness for C3 at two inner probes, interval 1, two iterations, probe 0. -/
theorem multi_probe_event_counts_witness :
    1 ≤ 1 ∧ 0 < 2 ∧
      ∃ t, executeTrace 1 2 = some t ∧
        (multiProbeTrace 2 t).count (0, EngineEvent.onBegin) = 1 ∧
        (multiProbeTrace 2 t).countP (probeNewGenPred 0) = 2 / 1 ∧
        (multiProbeTrace 2 t).count (0, EngineEvent.onEnd) = 1 ∧
        ∀ (e : EngineEvent) (j : Nat), j < 2 →
          (deliverToAll (List.range 2) e)[j]? = some (j, e) :=
  ⟨by decide, by decide, multi_probe_event_counts 2 1 2 0 (by decide) (by decide)⟩

/-- C4. Modelled from the spec (src/pso/swarm.rs is absent from src/):
constructing a swarm with `particle_count == 0`, `dimensions == 0`, or
`lower_bound >= upper_bound` fails with `ConfigurationError`, so no swarm is
created and the full run built on that configuration produces no iteration
events at all. -/
theorem swarm_generate_rejects_invalid_config
    (particle_count dimensions : Nat) (lower_bound upper_bound : F64)
    (objective : List F64 → F64) (randPos randVel : Nat → Nat → F64)
    (log_interval iterations : Nat)
    (h : particle_count = 0 ∨ dimensions = 0 ∨
      F64.le upper_bound lower_bound = true) :
    Swarm.generate particle_count dimensions lower_bound upper_bound objective
        randPos randVel = Except.error PSOError.ConfigurationError ∧
      runPSO particle_count dimensions lower_bound upper_bound objective
          randPos randVel log_interval iterations =
        Except.error PSOError.ConfigurationError := by
  have hg : Swarm.generate particle_count dimensions lower_bound upper_bound
      objective randPos randVel = Except.error PSOError.ConfigurationError := by
    unfold Swarm.generate
    rw [if_pos h]
  refine ⟨hg, ?_⟩
  unfold runPSO
  rw [hg]
  rfl

/-- Witness for C4 at the spec example `lower_bound = 5.0,
upper_bound = -5.0` (with the default particle count and dimensions). -/
theorem swarm_generate_rejects_invalid_config_witness :
    (30 = 0 ∨ 2 = 0 ∨ F64.le (F64.finite (-5)) (F64.finite 5) = true) ∧
      Swarm.generate 30 2 (F64.finite 5) (F64.finite (-5))
          (fun _ => F64.finite 0) (fun _ _ => F64.finite 0)
          (fun _ _ => F64.finite 0) =
        Except.error PSOError.ConfigurationError ∧
        runPSO 30 2 (F64.finite 5) (F64.finite (-5)) (fun _ => F64.finite 0)
            (fun _ _ => F64.finite 0) (fun _ _ => F64.finite 0) 10 500 =
          Except.error PSOError.ConfigurationError :=
  ⟨Or.inr (Or.inr (by decide)),
   swarm_generate_rejects_invalid_config 30 2 (F64.finite 5) (F64.finite (-5))
     (fun _ => F64.finite 0) (fun _ _ => F64.finite 0)
     (fun _ _ => F64.finite 0) 10 500 (Or.inr (Or.inr (by decide)))⟩

theorem fanOutDeliver_cons (b : EngineEvent → Option Nat)
    (rest : List (EngineEvent → Option Nat)) (i : Nat) (e : EngineEvent) :
    fanOutDeliver (b :: rest) i e =
      (i :: (fanOutDeliver rest (i + 1) e).1,
       match b e with
       | some code => (i, code) :: (fanOutDeliver rest (i + 1) e).2
       | none => (fanOutDeliver rest (i + 1) e).2) := rfl

theorem fanOutDeliver_delivered (bs : List (EngineEvent → Option Nat)) :
    ∀ (i : Nat) (e : EngineEvent),
      (fanOutDeliver bs i e).1 = List.range' i bs.length := by
  induction bs with
  | nil =>
    intro i e
    rfl
  | cons b rest ih =>
    intro i e
    rw [fanOutDeliver_cons]
    show i :: (fanOutDeliver rest (i + 1) e).1 = List.range' i (rest.length + 1)
    rw [ih (i + 1) e, List.range'_succ]

theorem fanOutDeliver_error_mem (bs : List (EngineEvent → Option Nat)) :
    ∀ (i j : Nat) (e : EngineEvent) (code : Nat) (hj : j < bs.length),
      bs.get ⟨j, hj⟩ e = some code →
        (i + j, code) ∈ (fanOutDeliver bs i e).2 := by
  induction bs with
  | nil =>
    intro i j e code hj
    exact absurd hj (by simp)
  | cons b rest ih =>
    intro i j e code hj hget
    cases j with
    | zero =>
      have hb : b e = some code := hget
      rw [fanOutDeliver_cons]
      simp [hb]
    | succ j =>
      have hj2 : j < rest.length := by
        simpa using Nat.lt_of_succ_lt_succ hj
      have hget2 : rest.get ⟨j, hj2⟩ e = some code := hget
      have hmem := ih (i + 1) j e code hj2 hget2
      have harith : i + (j + 1) = i + 1 + j := by omega
      rw [fanOutDeliver_cons, harith]
      cases hbe : b e <;> simp only [hbe]
      · exact hmem
      · exact List.mem_cons_of_mem _ hmem

/-- C5. Modelled from the spec (the `MultiProbe` fan-out and the PSO probe
trait are absent from src/): when delivery of an event to one inner probe
fails with a `ProbeDeliveryError`, every inner probe still receives that same
event — the notified index list is always the full registration order
`0, ..., N-1` — and the failing probe's error is collected and surfaced to
the caller rather than aborting the fan-out. -/
theorem fanout_delivery_resilient (bs : List (EngineEvent → Option Nat))
    (e : EngineEvent) (j code : Nat) (hj : j < bs.length)
    (hfail : bs.get ⟨j, hj⟩ e = some code) :
    (fanOutDeliver bs 0 e).1 = List.range bs.length ∧
      (j, code) ∈ (fanOutDeliver bs 0 e).2 := by
  constructor
  · rw [fanOutDeliver_delivered bs 0 e, List.range_eq_range']
  · simpa using fanOutDeliver_error_mem bs 0 j e code hj hfail

/-- Witness for C5: two inner probes, the first failing with error code 7 on
`on_end`; both probes are notified and the error is collected. -/
theorem fanout_delivery_resilient_witness :
    0 < ([fun _ => some 7, fun _ => none] :
        List (EngineEvent → Option Nat)).length ∧
      (fanOutDeliver [fun _ => some 7, fun _ => none] 0 EngineEvent.onEnd).1 =
        List.range 2 ∧
      (0, 7) ∈ (fanOutDeliver [fun _ => some 7, fun _ => none] 0
        EngineEvent.onEnd).2 :=
  ⟨by decide,
   fanout_delivery_resilient [fun _ => some 7, fun _ => none]
     EngineEvent.onEnd 0 7 (by decide) rfl⟩
